import Mathlib

/-!
Verification of the action-copy automation scripts.

This file gives a shallow embedding, over `List Char`, of the string
processing, outcome classification, challenge handling and workflow
control flow of the repository (Billing-Kerit_renew.py,
panel-na1_renew.py, data-online_renew.py, nodeloc/main.py,
nodeloc/checkin.py), together with theorems settling the specification
claims about these functions.  Browser observations (DOM queries, URLs,
captured network responses) are passed in as explicit values, mirroring
the values the Python code reads back from the page.
-/

/-- Characters of a Python string, the representation used throughout. -/
abbrev Str := List Char

/-- View a Lean string literal as the character-list representation. -/
def lit (s : String) : Str := s.toList

/-- Whitespace test of Python `str.strip` (ASCII whitespace). -/
def isSpace (c : Char) : Bool :=
  c = ' ' || c = '\t' || c = '\n' || c = '\r' || c = '\x0b' || c = '\x0c'

/-- Python `str.strip`: remove leading and trailing whitespace. -/
def strip (s : Str) : Str :=
  ((s.dropWhile isSpace).reverse.dropWhile isSpace).reverse

/-- Python `str.split(sep)` for a one-character separator: the pieces
between occurrences of the separator, empty pieces kept. -/
def splitChar (sep : Char) : Str → List Str
  | [] => [[]]
  | c :: rest =>
    if c = sep then [] :: splitChar sep rest
    else
      match splitChar sep rest with
      | [] => [[c]]
      | p :: ps => (c :: p) :: ps

/-- Python `str.split(sep, 1)`: the text before and after the first
occurrence of the separator, or `none` when the separator is absent
(which is what Python's `sep in s` test guards). -/
def splitFirst (sep : Char) : Str → Option (Str × Str)
  | [] => none
  | c :: rest =>
    if c = sep then some ([], rest)
    else (splitFirst sep rest).map (fun p => (c :: p.1, p.2))

/-- Python `sep.join(xs)`. -/
def joinSep (sep : Str) : List Str → Str
  | [] => []
  | [x] => x
  | x :: xs => x ++ sep ++ joinSep sep xs

/-- Does the second string start with the first?  Helper for the
substring test. -/
def startsWithStr : Str → Str → Bool
  | [], _ => true
  | _ :: _, [] => false
  | n :: ns, h :: hs => n = h && startsWithStr ns hs

/-- Python substring containment, the `in` operator on `str`
(also JavaScript `String.prototype.includes`). -/
def containsSub (needle : Str) : Str → Bool
  | [] => startsWithStr needle []
  | c :: rest => startsWithStr needle (c :: rest) || containsSub needle rest

/-- Python `str.lower`, character by character. -/
def lowerStr (s : Str) : Str := s.map Char.toLower

/-- Does the string not begin with whitespace (vacuously true when
empty)?  Characterizes strings `strip` leaves alone on the left. -/
def headOk (s : Str) : Bool :=
  match s with
  | [] => true
  | c :: _ => !isSpace c

/-- Does the string not end with whitespace? -/
def lastOk (s : Str) : Bool := headOk s.reverse

/-- Python `dict` assignment `d[k] = v` on an insertion-ordered
association list: update the existing binding in place, else append. -/
def dictInsert : List (Str × Str) → Str → Str → List (Str × Str)
  | [], k, v => [(k, v)]
  | p :: rest, k, v => if p.1 = k then (k, v) :: rest else p :: dictInsert rest k v

/-- Lookup in an association list (first binding wins, which is the
unique binding when the keys are distinct). -/
def listLookup : List (Str × Str) → Str → Option Str
  | [], _ => none
  | p :: rest, k => if p.1 = k then some p.2 else listLookup rest k

/-- Value of the last binding of a key in an association list. -/
def lastValue : List (Str × Str) → Str → Option Str
  | [], _ => none
  | p :: rest, k =>
    match lastValue rest k with
    | some v => some v
    | none => if p.1 = k then some p.2 else none

/-! Credential store adapter of `scripts/Billing-Kerit_renew.py`. -/

/-- One loop-body step of `parse_cookies`: strip the segment, require an
`=`, split at the first `=`, strip both sides, and require both the name
and the value to be non-empty; the resulting binding, if any. -/
def segParse (part : Str) : Option (Str × Str) :=
  match splitFirst '=' (strip part) with
  | none => none
  | some q =>
    let key := strip q.1
    let value := strip q.2
    if key ≠ [] ∧ value ≠ [] then some (key, value) else none

/-- `parse_cookies` (Billing-Kerit_renew.py lines 106-126): split on
`;`, record each well-formed `name=value` segment in a dict (so later
occurrences of a name overwrite earlier ones), and return the dict
items as name/value records. -/
def parse_cookies (cookie_str : Str) : List (Str × Str) :=
  if cookie_str = [] then []
  else
    (splitChar ';' cookie_str).foldl
      (fun seen part =>
        match segParse part with
        | some q => dictInsert seen q.1 q.2
        | none => seen) []

/-- The allow-listed secret name `session_id`. -/
def sessionIdName : Str := lit ("session_id")

/-- The allow-listed secret name `cf_clearance`. -/
def cfClearanceName : Str := lit ("cf_clearance")

/-- The `"; ".join` serialization of name/value pairs used by
`save_cookies_for_update`. -/
def serializePairs (s : List (Str × Str)) : Str :=
  joinSep (lit ("; ")) (s.map (fun p => p.1 ++ '=' :: p.2))

/-- `save_cookies_for_update` (Billing-Kerit_renew.py lines 226-244):
keep only the allow-listed cookies from the browser jar in a dict, and
join them as `name=value` separated by `"; "`; `none` when no
allow-listed cookie was present. -/
def save_cookies_for_update (cookies : List (Str × Str)) : Option Str :=
  let important := cookies.foldl
    (fun d c =>
      if c.1 = sessionIdName ∨ c.1 = cfClearanceName then dictInsert d c.1 c.2 else d) []
  if important = [] then none
  else some (serializePairs important)

/-! Outcome classifier of `scripts/Billing-Kerit_renew.py`. -/

/-- A captured `/api/renew` response as recorded by the interception
shim: HTTP status, the `ok` flag, and the `message` field of the JSON
body (empty when absent). -/
structure ApiResp where
  status : Nat
  ok : Bool
  message : Str
deriving DecidableEq, Repr

/-- The closed outcome taxonomy of `check_renewal_result`. -/
inductive RenewStatus
  | success
  | limit_reached
  | error
  | unknown
deriving DecidableEq, Repr

/-- The result record of `check_renewal_result`. -/
structure RenewResult where
  status : RenewStatus
  message : Str
  api_status : Option Nat
deriving DecidableEq, Repr

/-- The limit-message test of the 400 branch:
`"cannot exceed 7 days" in message.lower() or "exceed" in message.lower()`. -/
def exceedIn (m : Str) : Bool :=
  containsSub (lit ("cannot exceed 7 days")) (lowerStr m) ||
    containsSub (lit ("exceed")) (lowerStr m)

/-- Python `message or default`: the message unless it is empty. -/
def orDefault (m d : Str) : Str := if m = [] then d else m

/-- Default success message of the classifier. -/
def defaultOkMsg : Str := lit ("续订成功")

/-- Default error message of the 400 branch. -/
def defaultBadMsg : Str := lit ("请求错误")

/-- The `f"HTTP status"`-style fallback message of the generic error
branch. -/
def httpMsg (n : Nat) : Str := lit ("HTTP ") ++ lit (toString n)

/-- Tier 1 of `check_renewal_result` (lines 338-371): walk the captured
API responses (the caller passes them latest first), record the status
code, and return on the first decisive response; the boolean records
whether the loop returned. -/
def apiPhase : RenewResult → List ApiResp → RenewResult × Bool
  | r, [] => (r, false)
  | r, resp :: rest =>
    let r1 : RenewResult := { r with api_status := some resp.status }
    if resp.status = 200 ∧ resp.ok = true then
      ({ r1 with status := .success, message := orDefault resp.message defaultOkMsg }, true)
    else if resp.status = 400 then
      if exceedIn resp.message then
        ({ r1 with status := .limit_reached, message := resp.message }, true)
      else
        ({ r1 with status := .error, message := orDefault resp.message defaultBadMsg }, true)
    else if 400 ≤ resp.status then
      ({ r1 with status := .error, message := orDefault resp.message (httpMsg resp.status) }, true)
    else
      apiPhase r1 rest

/-- The toast scan of tier 2 of `check_renewal_result`: the first toast
whose trimmed text mentions the limit is returned verbatim, the first
success toast yields the sentinel `"SUCCESS"`. -/
def toastMsg : List Str → Option Str
  | [] => none
  | t0 :: rest =>
    let t := strip t0
    if containsSub (lit ("Cannot exceed")) t || containsSub (lit ("exceed 7 days")) t then some t
    else if containsSub (lit ("success")) t && containsSub (lit ("renew")) t then
      some (lit ("SUCCESS"))
    else toastMsg rest

/-- The page-message script of tier 2 of `check_renewal_result` (lines
375-401): body-text phrases first, then the toast scan. -/
def pageMessage (bodyText : Str) (toasts : List Str) : Option Str :=
  if containsSub (lit ("Cannot exceed 7 days")) bodyText then
    some (lit ("Cannot exceed 7 days validity"))
  else if containsSub (lit ("limit reached")) bodyText ||
      containsSub (lit ("weekly limit")) bodyText then
    some (lit ("Weekly limit reached"))
  else if containsSub (lit ("renewed successfully")) bodyText ||
      containsSub (lit ("Renewal successful")) bodyText then
    some (lit ("SUCCESS"))
  else toastMsg toasts

/-- Tier 2 of `check_renewal_result` (lines 373-411): interpret the page
message, when any, on top of the result of tier 1. -/
def domPhase (r : RenewResult) (bodyText : Str) (toasts : List Str) : RenewResult :=
  match pageMessage bodyText toasts with
  | none => r
  | some p =>
    if p = [] then r
    else if p = lit ("SUCCESS") then { r with status := .success, message := defaultOkMsg }
    else if containsSub (lit ("exceed")) (lowerStr p) ||
        containsSub (lit ("limit")) (lowerStr p) then
      { r with status := .limit_reached, message := p }
    else r

/-- The initial result record of `check_renewal_result`. -/
def initialRenewResult : RenewResult :=
  { status := .unknown, message := [], api_status := none }

/-- `check_renewal_result` (Billing-Kerit_renew.py lines 331-415): tier
1 over the captured API responses in reverse (latest-first) order; when
tier 1 did not return, tier 2 over the page text and toasts. -/
def check_renewal_result (apiResponses : List ApiResp) (bodyText : Str)
    (toasts : List Str) : RenewResult :=
  let out := apiPhase initialRenewResult apiResponses.reverse
  if out.2 then out.1 else domPhase out.1 bodyText toasts

/-! Challenge handler of `scripts/Billing-Kerit_renew.py`. -/

/-- Per-attempt observations of `handle_turnstile`: the challenge-marker
query, the passed-marker query, and the post-click re-check (the second
query of the attempt). -/
structure TurnstileObs where
  hasTurnstile : Bool
  isChecked : Bool
  isCheckedAfterClick : Bool
deriving DecidableEq, Repr

/-- The attempt loop of `handle_turnstile` (lines 422-494): absent
marker or passed marker returns true; otherwise one synthetic click is
performed (counted) and the post-click re-check may return true; on
exhausting the attempts the function returns false. -/
def handle_turnstile_go (obs : Nat → TurnstileObs) : Nat → Nat → Nat → Bool × Nat
  | _, 0, clicks => (false, clicks)
  | attempt, rem + 1, clicks =>
    let o := obs attempt
    if o.hasTurnstile = false then (true, clicks)
    else if o.isChecked = true then (true, clicks)
    else if o.isCheckedAfterClick = true then (true, clicks + 1)
    else handle_turnstile_go obs (attempt + 1) rem (clicks + 1)

/-- `handle_turnstile` (Billing-Kerit_renew.py lines 418-494), returning
the boolean outcome together with the number of click interactions
performed. -/
def handle_turnstile (obs : Nat → TurnstileObs) (max_attempts : Nat) : Bool × Nat :=
  handle_turnstile_go obs 0 max_attempts 0

/-! Session establishment checks of `scripts/Billing-Kerit_renew.py`. -/

/-- DOM observations consumed by `check_login_status`. -/
structure SessionDom where
  hasLogoutLink : Bool
  hasFreePanelLink : Bool
  bodyText : Str
deriving DecidableEq, Repr

/-- The in-page logged-in probe of `check_login_status` (lines 505-514):
true, false, or null. -/
def loggedInSignal (d : SessionDom) : Option Bool :=
  if d.hasLogoutLink then some true
  else if d.hasFreePanelLink then some true
  else if containsSub (lit ("Free Plans")) d.bodyText ||
      containsSub (lit ("Dashboard")) d.bodyText then some true
  else if containsSub (lit ("Please log in")) d.bodyText ||
      containsSub (lit ("Sign in")) d.bodyText then some false
  else none

/-- `check_login_status` (Billing-Kerit_renew.py lines 497-525): a login
or registration path in the URL means not logged in; otherwise the DOM
probe decides, with a URL fallback when the probe is null. -/
def check_login_status (currentUrl : Str) (dom : SessionDom) : Bool :=
  if containsSub (lit ("/login")) currentUrl || containsSub (lit ("/register")) currentUrl then
    false
  else
    match loggedInSignal dom with
    | some b => b
    | none =>
      containsSub (lit ("/free_panel")) currentUrl || containsSub (lit ("/session")) currentUrl

/-! Renewal action loop of `scripts/Billing-Kerit_renew.py`. -/

/-- Per-round observations of the renewal loop: the disabled state of
the trigger button, the modal visibility after the click, the limit
text scan after the confirm click, and the remaining-days read-back
(`none` when the integer parse raised and the check was skipped). -/
structure RenewRound where
  btnDisabled : Bool
  modalVisible : Bool
  limitReached : Bool
  daysNum : Option Nat
deriving DecidableEq, Repr

/-- Why the renewal loop stopped. -/
inductive StopReason
  | maxRounds
  | buttonDisabled
  | limitText
  | daysCap
deriving DecidableEq, Repr

/-- Aggregate outcome of the renewal loop: renewals counted, trigger
clicks performed, and the stop reason. -/
structure LoopOut where
  total : Nat
  clicks : Nat
  reason : StopReason
deriving DecidableEq, Repr

/-- The body of the renewal loop (Billing-Kerit_renew.py lines
904-1065): per round, stop when the trigger reports disabled; click the
trigger; skip the round when the modal did not open; after the confirm
step stop on limit text; count the renewal; stop when the remaining
days reach 7. -/
def renewLoopGo (env : Nat → RenewRound) : Nat → Nat → Nat → Nat → LoopOut
  | _, 0, total, clicks => ⟨total, clicks, .maxRounds⟩
  | round, rem + 1, total, clicks =>
    let e := env round
    if e.btnDisabled then ⟨total, clicks, .buttonDisabled⟩
    else if e.modalVisible = false then renewLoopGo env (round + 1) rem total (clicks + 1)
    else if e.limitReached then ⟨total, clicks + 1, .limitText⟩
    else
      match e.daysNum with
      | some n =>
        if 7 ≤ n then ⟨total + 1, clicks + 1, .daysCap⟩
        else renewLoopGo env (round + 1) rem (total + 1) (clicks + 1)
      | none => renewLoopGo env (round + 1) rem (total + 1) (clicks + 1)

/-- `max_renewals = 7` of the renewal loop. -/
def maxRenewals : Nat := 7

/-- The renewal loop run from round 1 with the configured maximum. -/
def runRenewLoop (env : Nat → RenewRound) : LoopOut :=
  renewLoopGo env 1 maxRenewals 0 0

/-! Main control flow of `scripts/Billing-Kerit_renew.py`. -/

/-- The reusable cookie tip appended to cookie-related error messages. -/
def cookieRenewTip : Str := lit ("\n\n⚠️ 注意: 请使用与脚本相同的代理网络获取 Cookie")

/-- `get_error_notify_message` (lines 608-657): title and message for a
page-error class, with the calling context prepended to the message. -/
def get_error_notify_message (page_error : Str) (context : Str) : Str × Str :=
  let base :=
    if page_error = lit ("TOO_MANY_REDIRECTS") then
      (lit ("Cookie 失效"), lit ("重定向次数过多，Cookie 已失效，请重新获取") ++ cookieRenewTip)
    else if page_error = lit ("CONNECTION_ERROR") then
      (lit ("连接错误"), lit ("页面连接失败，Cookie 可能已失效或代理异常") ++ cookieRenewTip)
    else if page_error = lit ("PAGE_NOT_WORKING") then
      (lit ("页面异常"), lit ("页面不工作，Cookie 可能已失效") ++ cookieRenewTip)
    else if page_error = lit ("ACCESS_BLOCKED") then
      (lit ("访问被阻止"), lit ("IP 被限制，请更换代理"))
    else if page_error = lit ("NOT_FOUND") then
      (lit ("页面未找到"), lit ("页面 404，服务可能已变更"))
    else if page_error = lit ("SERVER_ERROR") then
      (lit ("服务器错误"), lit ("服务器内部错误，请稍后重试"))
    else
      (lit ("页面错误"), lit ("错误类型: ") ++ page_error ++ cookieRenewTip)
  if context = [] then base
  else (base.1, '[' :: context ++ lit ("] ") ++ base.2)

/-- Environment of one run of the Billing-Kerit `main` flow after
browser start: the observations each sequential stage reads back. -/
structure MainEnv where
  initialPageError : Option Str
  initialBlocked : Bool
  sessionPageError : Option Str
  sessionUrl : Str
  sessionDom : SessionDom
  freePanelError : Option Str
  freePanelUrl : Str
  retryFreePanelError : Option Str
  retryFreePanelUrl : Str
  freePanelBlocked : Bool
  renewBtnDisabled : Bool
  rounds : Nat → RenewRound

/-- Observable outcome of one run of the Billing-Kerit `main` flow:
process exit code, the (success flag, title) of each notification sent,
whether the renewal loop was entered, and the trigger clicks it
performed.  Screenshot and secret-rotation side effects are external
sinks and are not recorded. -/
structure FlowOut where
  exitCode : Nat
  notices : List (Bool × Str)
  loopEntered : Bool
  loopClicks : Nat
deriving DecidableEq, Repr

/-- Title of the notification sent when the free-panel retry also
failed (lines 843-849). -/
def retryFailTitle : Option Str → Str
  | some e => (get_error_notify_message e (lit ("Free Plans 重试"))).1
  | none => lit ("访问失败")

/-- Stages 6-7 of `main` (lines 879-1118): skip when the trigger button
is disabled, otherwise run the renewal loop and report success exactly
when at least one round renewed. -/
def flowRenewPhase (env : MainEnv) : FlowOut :=
  if env.renewBtnDisabled then ⟨0, [(true, lit ("检查完成"))], false, 0⟩
  else
    let out := runRenewLoop env.rounds
    ⟨0, [(if 0 < out.total then (true, lit ("续订成功")) else (false, lit ("续订未执行")))],
      true, out.clicks⟩

/-- Stage 4 of `main` (lines 804-861): free-panel navigation with one
retry, the blocked check, then the renewal phase. -/
def flowFreePanelPhase (env : MainEnv) : FlowOut :=
  match env.freePanelError with
  | some e => ⟨1, [(false, (get_error_notify_message e (lit ("Free Plans"))).1)], false, 0⟩
  | none =>
    if containsSub (lit ("/free_panel")) env.freePanelUrl = false ∧
        (env.retryFreePanelError ≠ none ∨
          containsSub (lit ("/free_panel")) env.retryFreePanelUrl = false) then
      ⟨1, [(false, retryFailTitle env.retryFreePanelError)], false, 0⟩
    else if env.freePanelBlocked then ⟨1, [(false, lit ("访问被阻止"))], false, 0⟩
    else flowRenewPhase env

/-- The sequential `main` flow of Billing-Kerit_renew.py from the first
navigation (lines 744-1120): page-error and blocked checks, the login
verification, then the free-panel and renewal phases.  Each fatal path
sends one failure notification and exits with code 1. -/
def mainFlow (env : MainEnv) : FlowOut :=
  match env.initialPageError with
  | some e => ⟨1, [(false, (get_error_notify_message e (lit ("首次访问"))).1)], false, 0⟩
  | none =>
    if env.initialBlocked then ⟨1, [(false, lit ("访问被阻止"))], false, 0⟩
    else
      match env.sessionPageError with
      | some e => ⟨1, [(false, (get_error_notify_message e (lit ("Session 页面"))).1)], false, 0⟩
      | none =>
        if check_login_status env.sessionUrl env.sessionDom = false then
          ⟨1, [(false, lit ("登录失败"))], false, 0⟩
        else flowFreePanelPhase env

/-- `mask` (Billing-Kerit_renew.py lines 68-72). -/
def mask (s : Str) : Str :=
  if s = [] ∨ s.length ≤ 4 then lit ("****")
  else s.take 2 ++ lit ("***") ++ s.drop (s.length - 2)

/-! Definitions from `scripts/panel-na1_renew.py`. -/

/-- `mask_id` (panel-na1_renew.py lines 43-47). -/
def mask_id (server_id : Str) : Str :=
  if server_id = [] ∨ server_id.length ≤ 2 then server_id
  else
    server_id.take 1 ++ List.replicate (server_id.length - 2) '*' ++
      server_id.drop (server_id.length - 1)

/-- A Playwright cookie record as built by `parse_cookie_string`. -/
structure PWCookie where
  name : Str
  value : Str
  domain : Str
  path : Str
  secure : Bool
  httpOnly : Bool
  sameSite : Str
deriving DecidableEq, Repr

/-- One loop-body step of `parse_cookie_string`: strip the segment, skip
it unless it contains `=`, split at the first `=`, strip both sides,
URL-decode the value (`unq` stands for `urllib.parse.unquote`, an
external library function passed in abstractly), and build the cookie
record. -/
def pwCookieOfItem (unq : Str → Str) (domain : Str) (item0 : Str) : Option PWCookie :=
  let item := strip item0
  match splitFirst '=' item with
  | none => none
  | some q =>
    let name := strip q.1
    let value := unq (strip q.2)
    some { name := name, value := value, domain := domain, path := lit ("/"), secure := true,
           httpOnly := containsSub (lit ("session")) (lowerStr name) ||
             containsSub (lit ("remember")) (lowerStr name),
           sameSite := lit ("Lax") }

/-- `parse_cookie_string` (panel-na1_renew.py lines 74-105): split on
`;` and append one cookie record per segment containing `=`; no
deduplication. -/
def parse_cookie_string (unq : Str → Str) (cookie_str : Str) (domain : Str) : List PWCookie :=
  if cookie_str = [] then []
  else
    (splitChar ';' cookie_str).foldl
      (fun acc item =>
        match pwCookieOfItem unq domain item with
        | some c => acc ++ [c]
        | none => acc) []

/-- The final report and exit of panel-na1_renew.py `main` (lines
512-520): exit code together with the (success flag, title) of the
notification. -/
def panel_exit_report (success_count fail_count : Nat) : Nat × Bool × Str :=
  if fail_count = 0 then (0, true, lit ("全部完成"))
  else if 0 < success_count then (0, true, lit ("部分完成"))
  else (1, false, lit ("全部失败"))

/-! Definitions from `nodeloc/main.py` and `nodeloc/checkin.py`. -/

/-- `mask_username` (nodeloc/main.py lines 20-28). -/
def mask_username (username : Str) : Str :=
  if username = [] ∨ username.length ≤ 2 then lit ("***")
  else if username.length ≤ 4 then
    username.take 1 ++ List.replicate (username.length - 1) '*'
  else
    let show_len := min 2 (username.length / 3)
    username.take show_len ++ List.replicate (username.length - show_len * 2) '*' ++
      username.drop (username.length - show_len)

/-- Process exit status of nodeloc/main.py `main` (lines 143-192): the
function returns without ever calling `sys.exit`, so the interpreter
exits 0 whatever the success and failure counts were. -/
def nodeloc_exit (success_count fail_count : Nat) : Nat :=
  0 + 0 * (success_count + fail_count)

/-- `alert.text.replace` of the popup scan: remove every `×` character. -/
def removeTimes (s : Str) : Str := s.filter (fun c => c ≠ '×')

/-- Processed text of one popup-selector lookup: `none` when the
selector found nothing or the cleaned, trimmed text is empty. -/
def popupTextOf (o : Option Str) : Option Str :=
  match o with
  | none => none
  | some t =>
    let text := strip (removeTimes t)
    if text = [] then none else some text

/-- The selector loop of `_get_checkin_result`: the first popup with
non-empty processed text. -/
def firstPopupText : List (Option Str) → Option Str
  | [] => none
  | o :: rest =>
    match popupTextOf o with
    | some t => some t
    | none => firstPopupText rest

/-- `_get_checkin_result` (nodeloc/checkin.py lines 185-223): classify
the first popup text when one exists, else fall back to the page
source, else report unknown. -/
def _get_checkin_result (popups : List (Option Str)) (page : Str) (display_name : Str) : Str :=
  match firstPopupText popups with
  | some text =>
    if containsSub (lit ("签到成功")) text then lit ("[🎉] ") ++ display_name ++ ' ' :: text
    else if containsSub (lit ("已经签到")) text || containsSub (lit ("已签到")) text then
      lit ("[⏭️] ") ++ display_name ++ lit (" 今日已签到")
    else lit ("[⚠️] ") ++ display_name ++ ' ' :: text
  | none =>
    if containsSub (lit ("签到成功")) page then
      lit ("[🎉] ") ++ display_name ++ lit (" 签到成功")
    else if containsSub (lit ("已连续签到")) page || containsSub (lit ("已签到")) page then
      lit ("[⏭️] ") ++ display_name ++ lit (" 今日已签到")
    else lit ("[❓] ") ++ display_name ++ lit (" 签到状态未知")

/-! Definitions from `scripts/data-online_renew.py`. -/

/-- Final status values of data-online_renew.py `main`. -/
inductive DOStatus
  | success
  | disabled
  | wrong_password
  | failed
deriving DecidableEq, Repr

/-- The exit mapping of data-online_renew.py `main` (lines 402-405):
account-level conditions exit 0, any other non-success exits 1, success
falls through to a normal exit 0. -/
def data_online_exit (s : DOStatus) : Nat :=
  if s = DOStatus.disabled ∨ s = DOStatus.wrong_password then 0
  else if s ≠ DOStatus.success then 1
  else 0

/-! Derived views used to state the claims. -/

/-- Is a captured response decisive for tier 1 of the classifier: a
200/ok success or any status of at least 400. -/
def decisiveResp (r : ApiResp) : Bool :=
  (decide (r.status = 200) && r.ok) || decide (400 ≤ r.status)

/-- Modelled from the spec: the structured-response mapping of §4.4
(status 200 with ok flag to success, status 400 with a recognized
exceed message to limit reached, other status at least 400 to error),
stated independently of the classifier to compare the two. -/
def specStructuredMapping (r : ApiResp) : RenewStatus :=
  if r.status = 200 ∧ r.ok = true then .success
  else if r.status = 400 ∧ exceedIn r.message = true then .limit_reached
  else .error

/-- The well-formed bindings of a cookie string in segment order, one
per segment that `parse_cookies` records. -/
def goodBindings (cookie_str : Str) : List (Str × Str) :=
  if cookie_str = [] then []
  else (splitChar ';' cookie_str).filterMap segParse

/-- The (name, decoded value) of one segment of `parse_cookie_string`,
`none` exactly when the segment lacks `=`. -/
def eqSegPair (unq : Str → Str) (item : Str) : Option (Str × Str) :=
  (splitFirst '=' (strip item)).map (fun q => (strip q.1, unq (strip q.2)))

/-- The (name, decoded value) pairs of the `=`-containing segments of a
cookie string, in input order. -/
def eqSegPairs (unq : Str → Str) (cookie_str : Str) : List (Str × Str) :=
  if cookie_str = [] then []
  else (splitChar ';' cookie_str).filterMap (eqSegPair unq)

/-- A secret name that serializes and parses back without damage:
non-empty, free of the separators, and whitespace-free at both ends. -/
def goodKey (k : Str) : Prop :=
  k ≠ [] ∧ ';' ∉ k ∧ '=' ∉ k ∧ headOk k = true ∧ lastOk k = true

/-- A secret value that serializes and parses back without damage:
non-empty, free of the segment separator, and whitespace-free at both
ends (an `=` inside a value is harmless, the parser splits at the
first one). -/
def goodValue (v : Str) : Prop :=
  v ≠ [] ∧ ';' ∉ v ∧ headOk v = true ∧ lastOk v = true

instance (k : Str) : Decidable (goodKey k) := by unfold goodKey; infer_instance

instance (v : Str) : Decidable (goodValue v) := by unfold goodValue; infer_instance

/-! String-processing lemmas. -/

theorem splitChar_ne_nil (sep : Char) (s : Str) : splitChar sep s ≠ [] := by
  induction s with
  | nil => simp [splitChar]
  | cons c rest ih =>
    by_cases h : c = sep
    · simp [splitChar, h]
    · simp only [splitChar, if_neg h]
      cases hr : splitChar sep rest with
      | nil => simp
      | cons p ps => simp

theorem splitChar_eq_single (sep : Char) (s : Str) (h : sep ∉ s) :
    splitChar sep s = [s] := by
  induction s with
  | nil => rfl
  | cons c rest ih =>
    simp only [List.mem_cons, not_or] at h
    have hc : ¬ c = sep := fun e => h.1 e.symm
    simp [splitChar, hc, ih h.2]

theorem splitChar_append (sep : Char) (a b : Str) (h : sep ∉ a) :
    splitChar sep (a ++ sep :: b) = a :: splitChar sep b := by
  induction a with
  | nil => simp [splitChar]
  | cons c rest ih =>
    simp only [List.mem_cons, not_or] at h
    have hc : ¬ c = sep := fun e => h.1 e.symm
    simp [splitChar, hc, ih h.2]

theorem splitFirst_append (sep : Char) (a b : Str) (h : sep ∉ a) :
    splitFirst sep (a ++ sep :: b) = some (a, b) := by
  induction a with
  | nil => simp [splitFirst]
  | cons c rest ih =>
    simp only [List.mem_cons, not_or] at h
    have hc : ¬ c = sep := fun e => h.1 e.symm
    simp [splitFirst, hc, ih h.2]

theorem dropWhile_eq_self_of_headOk (s : Str) (h : headOk s = true) :
    s.dropWhile isSpace = s := by
  cases s with
  | nil => rfl
  | cons c rest =>
    simp only [headOk, Bool.not_eq_true'] at h
    simp [List.dropWhile_cons, h]

theorem strip_eq_self (s : Str) (h1 : headOk s = true) (h2 : lastOk s = true) :
    strip s = s := by
  unfold strip
  rw [dropWhile_eq_self_of_headOk s h1]
  rw [dropWhile_eq_self_of_headOk s.reverse h2]
  exact List.reverse_reverse s

theorem strip_cons_space (c : Char) (t : Str) (h : isSpace c = true) :
    strip (c :: t) = strip t := by
  unfold strip
  simp [List.dropWhile_cons, h]

theorem headOk_append (a b : Str) (ha : a ≠ []) : headOk (a ++ b) = headOk a := by
  cases a with
  | nil => exact absurd rfl ha
  | cons c rest => rfl

theorem lastOk_append_last (a : Str) (c : Char) (v : Str) (hv : v ≠ [])
    (h : lastOk v = true) : lastOk (a ++ c :: v) = true := by
  unfold lastOk
  rw [List.reverse_append, List.reverse_cons, List.append_assoc]
  rw [headOk_append v.reverse _ (by simpa using hv)]
  exact h

/-! Association-list (Python dict) lemmas. -/

theorem dictInsert_append (d : List (Str × Str)) (k v : Str)
    (h : k ∉ d.map Prod.fst) : dictInsert d k v = d ++ [(k, v)] := by
  induction d with
  | nil => rfl
  | cons p rest ih =>
    simp only [List.map_cons, List.mem_cons, not_or] at h
    have hc : ¬ p.1 = k := fun e => h.1 e.symm
    simp [dictInsert, hc, ih h.2]

theorem listLookup_dictInsert_self (d : List (Str × Str)) (k v : Str) :
    listLookup (dictInsert d k v) k = some v := by
  induction d with
  | nil => simp [dictInsert, listLookup]
  | cons p rest ih =>
    by_cases h : p.1 = k
    · simp [dictInsert, h, listLookup]
    · simp [dictInsert, h, listLookup, ih]

theorem listLookup_dictInsert_ne (d : List (Str × Str)) (k v k2 : Str)
    (hne : k2 ≠ k) : listLookup (dictInsert d k v) k2 = listLookup d k2 := by
  induction d with
  | nil => simp [dictInsert, listLookup, Ne.symm hne]
  | cons p rest ih =>
    by_cases h : p.1 = k
    · simp [dictInsert, h, listLookup, Ne.symm hne]
    · simp [dictInsert, h, listLookup, ih]

theorem mem_keys_dictInsert (d : List (Str × Str)) (k v k2 : Str) :
    k2 ∈ (dictInsert d k v).map Prod.fst ↔ k2 ∈ d.map Prod.fst ∨ k2 = k := by
  induction d with
  | nil => simp [dictInsert]
  | cons p rest ih =>
    by_cases h : p.1 = k
    · simp only [dictInsert, if_pos h, List.map_cons, List.mem_cons]
      rw [h]
      tauto
    · simp only [dictInsert, if_neg h, List.map_cons, List.mem_cons, ih]
      tauto

theorem nodup_keys_dictInsert (d : List (Str × Str)) (k v : Str)
    (h : (d.map Prod.fst).Nodup) : ((dictInsert d k v).map Prod.fst).Nodup := by
  induction d with
  | nil => simp [dictInsert]
  | cons p rest ih =>
    simp only [List.map_cons, List.nodup_cons] at h
    by_cases hp : p.1 = k
    · simp only [dictInsert, if_pos hp, List.map_cons, List.nodup_cons]
      exact ⟨by rw [← hp]; exact h.1, h.2⟩
    · simp only [dictInsert, if_neg hp, List.map_cons, List.nodup_cons]
      refine ⟨?_, ih h.2⟩
      intro hmem
      rcases (mem_keys_dictInsert rest k v p.1).mp hmem with h1 | h2
      · exact h.1 h1
      · exact hp h2

theorem listLookup_foldl_dictInsert (bs : List (Str × Str)) :
    ∀ (d : List (Str × Str)) (k : Str),
      listLookup (bs.foldl (fun d q => dictInsert d q.1 q.2) d) k =
        match lastValue bs k with
        | some v => some v
        | none => listLookup d k := by
  induction bs with
  | nil => intro d k; rfl
  | cons b rest ih =>
    intro d k
    rw [List.foldl_cons, ih]
    cases hlv : lastValue rest k with
    | some v => simp [lastValue, hlv]
    | none =>
      by_cases hb : b.1 = k
      · simp only [lastValue, hlv, if_pos hb]
        rw [hb, listLookup_dictInsert_self]
      · simp only [lastValue, hlv, if_neg hb]
        exact listLookup_dictInsert_ne d b.1 b.2 k (fun e => hb e.symm)

theorem nodup_keys_foldl_dictInsert (bs : List (Str × Str)) :
    ∀ d, (d.map Prod.fst).Nodup →
      (((bs.foldl (fun d q => dictInsert d q.1 q.2) d)).map Prod.fst).Nodup := by
  induction bs with
  | nil => intro d h; exact h
  | cons b rest ih =>
    intro d h
    exact ih _ (nodup_keys_dictInsert d b.1 b.2 h)

theorem mem_keys_foldl_dictInsert (bs : List (Str × Str)) :
    ∀ d k, k ∈ ((bs.foldl (fun d q => dictInsert d q.1 q.2) d)).map Prod.fst ↔
      k ∈ d.map Prod.fst ∨ k ∈ bs.map Prod.fst := by
  induction bs with
  | nil => intro d k; simp
  | cons b rest ih =>
    intro d k
    rw [List.foldl_cons, ih, mem_keys_dictInsert]
    simp only [List.map_cons, List.mem_cons]
    tauto

theorem foldl_seg_filterMap (parts : List Str) : ∀ d,
    parts.foldl (fun seen part =>
      match segParse part with
      | some q => dictInsert seen q.1 q.2
      | none => seen) d =
    (parts.filterMap segParse).foldl (fun d q => dictInsert d q.1 q.2) d := by
  induction parts with
  | nil => intro d; rfl
  | cons x rest ih =>
    intro d
    rw [List.foldl_cons]
    cases hx : segParse x with
    | none => rw [List.filterMap_cons_none hx]; simpa [hx] using ih _
    | some y =>
      rw [List.filterMap_cons_some hx, List.foldl_cons]
      simpa [hx] using ih _

theorem foldl_pw_filterMap (unq : Str → Str) (dom : Str) (parts : List Str) : ∀ acc,
    parts.foldl (fun acc item =>
      match pwCookieOfItem unq dom item with
      | some c => acc ++ [c]
      | none => acc) acc = acc ++ parts.filterMap (pwCookieOfItem unq dom) := by
  induction parts with
  | nil => intro acc; simp
  | cons x rest ih =>
    intro acc
    rw [List.foldl_cons]
    cases hx : pwCookieOfItem unq dom x with
    | none => rw [List.filterMap_cons_none hx]; simpa [hx] using ih _
    | some y =>
      rw [List.filterMap_cons_some hx]
      simp only [hx]
      rw [ih]
      simp

theorem parse_cookies_eq_dictFold (cookie_str : Str) :
    parse_cookies cookie_str =
      (goodBindings cookie_str).foldl (fun d q => dictInsert d q.1 q.2) [] := by
  unfold parse_cookies goodBindings
  by_cases h : cookie_str = []
  · simp [h]
  · simp only [if_neg h]
    exact foldl_seg_filterMap _ []

theorem parse_cookie_string_eq_filterMap (unq : Str → Str) (cookie_str dom : Str) :
    parse_cookie_string unq cookie_str dom =
      if cookie_str = [] then []
      else (splitChar ';' cookie_str).filterMap (pwCookieOfItem unq dom) := by
  unfold parse_cookie_string
  by_cases h : cookie_str = []
  · simp [h]
  · simp only [if_neg h]
    exact (foldl_pw_filterMap unq dom _ []).trans (by simp)

/-! Round-trip lemmas for the credential store adapter. -/

theorem segParse_good (k v : Str) (hk : goodKey k) (hv : goodValue v) :
    segParse (k ++ '=' :: v) = some (k, v) := by
  obtain ⟨hk1, hk2, hk3, hk4, hk5⟩ := hk
  obtain ⟨hv1, hv2, hv3, hv4⟩ := hv
  have hstrip : strip (k ++ '=' :: v) = k ++ '=' :: v := by
    apply strip_eq_self
    · rw [headOk_append k _ hk1]; exact hk4
    · exact lastOk_append_last k '=' v hv1 hv4
  have hins : strip k = k := strip_eq_self k hk4 hk5
  have hinv : strip v = v := strip_eq_self v hv3 hv4
  unfold segParse
  rw [hstrip, splitFirst_append '=' k v hk3]
  simp [hins, hinv, hk1, hv1]

theorem semicolon_not_mem_seg (k v : Str) (hk : ';' ∉ k) (hv : ';' ∉ v) :
    ';' ∉ k ++ '=' :: v := by
  simp only [List.mem_append, List.mem_cons, not_or]
  exact ⟨hk, by decide, hv⟩

theorem filterMap_segParse_cons_space (x : Str) (xs : List Str) :
    List.filterMap segParse ((' ' :: x) :: xs) = List.filterMap segParse (x :: xs) := by
  have hsp : segParse (' ' :: x) = segParse x := by
    unfold segParse
    rw [strip_cons_space ' ' x (by decide)]
  simp only [List.filterMap_cons, hsp]

theorem goodBindings_serialize (s : List (Str × Str)) :
    (∀ p ∈ s, goodKey p.1 ∧ goodValue p.2) →
    (splitChar ';' (serializePairs s)).filterMap segParse = s := by
  induction s with
  | nil => intro _; rfl
  | cons p rest ih =>
    intro hall
    obtain ⟨hk, hv⟩ := hall p (List.mem_cons_self p rest)
    have hseg : ';' ∉ p.1 ++ '=' :: p.2 := semicolon_not_mem_seg p.1 p.2 hk.2.1 hv.2.1
    cases rest with
    | nil =>
      have : serializePairs [p] = p.1 ++ '=' :: p.2 := rfl
      rw [this, splitChar_eq_single ';' _ hseg]
      simp [List.filterMap_cons, segParse_good p.1 p.2 hk hv]
    | cons r rs =>
      have hser : serializePairs (p :: r :: rs) =
          (p.1 ++ '=' :: p.2) ++ ';' :: ' ' :: serializePairs (r :: rs) := by
        unfold serializePairs
        simp only [List.map_cons, joinSep, lit]
        rw [List.append_assoc]
        rfl
      rw [hser, splitChar_append ';' _ _ hseg]
      have hrec := ih (fun q hq => hall q (List.mem_cons_of_mem p hq))
      cases hsp : splitChar ';' (serializePairs (r :: rs)) with
      | nil => exact absurd hsp (splitChar_ne_nil ';' _)
      | cons q qs =>
        have hsp2 : splitChar ';' (' ' :: serializePairs (r :: rs)) = (' ' :: q) :: qs := by
          simp only [splitChar, hsp]
          rfl
        rw [hsp2]
        rw [List.filterMap_cons_some (segParse_good p.1 p.2 hk hv)]
        rw [filterMap_segParse_cons_space]
        rw [← hsp, hrec]

theorem foldl_dictInsert_of_nodup (s : List (Str × Str)) : ∀ d,
    ((d.map Prod.fst ++ s.map Prod.fst).Nodup) →
    s.foldl (fun d q => dictInsert d q.1 q.2) d = d ++ s := by
  induction s with
  | nil => intro d _; simp
  | cons p rest ih =>
    intro d hnd
    rw [List.foldl_cons]
    have hmem : p.1 ∉ d.map Prod.fst := by
      rcases List.nodup_append.mp hnd with ⟨h1, h2, hdisj⟩
      intro hp
      exact hdisj hp (by simp)
    rw [dictInsert_append d p.1 p.2 hmem]
    have hnd2 : (((d ++ [(p.1, p.2)]).map Prod.fst) ++ rest.map Prod.fst).Nodup := by
      simpa [List.append_assoc] using hnd
    rw [ih _ hnd2]
    simp

theorem important_foldl_eq (s : List (Str × Str)) : ∀ d,
    (∀ p ∈ s, p.1 = sessionIdName ∨ p.1 = cfClearanceName) →
    s.foldl (fun d c =>
      if c.1 = sessionIdName ∨ c.1 = cfClearanceName then dictInsert d c.1 c.2 else d) d =
    s.foldl (fun d q => dictInsert d q.1 q.2) d := by
  induction s with
  | nil => intro d _; rfl
  | cons p rest ih =>
    intro d hall
    simp only [List.foldl_cons]
    rw [if_pos (hall p (List.mem_cons_self p rest))]
    exact ih _ (fun q hq => hall q (List.mem_cons_of_mem p hq))

theorem serializePairs_ne_nil (p : Str × Str) (rest : List (Str × Str))
    (_hk : p.1 ≠ []) : serializePairs (p :: rest) ≠ [] := by
  cases rest with
  | nil =>
    show p.1 ++ '=' :: p.2 ≠ []
    simp [List.append_eq_nil]
  | cons r rs =>
    unfold serializePairs
    simp only [List.map_cons, joinSep]
    simp [List.append_eq_nil]

/-! Outcome-classifier lemmas. -/

theorem apiPhase_not_returned (rs : List ApiResp) :
    ∀ r, (apiPhase r rs).2 = false →
      (apiPhase r rs).1.status = r.status ∧ (apiPhase r rs).1.message = r.message := by
  induction rs with
  | nil => intro r _; exact ⟨rfl, rfl⟩
  | cons resp rest ih =>
    intro r h
    by_cases h1 : resp.status = 200 ∧ resp.ok = true
    · simp [apiPhase, h1] at h
    · by_cases h2 : resp.status = 400
      · by_cases h2e : exceedIn resp.message = true
        · simp [apiPhase, h1, h2, h2e] at h
        · simp [apiPhase, h1, h2, h2e] at h
      · by_cases h3 : 400 ≤ resp.status
        · simp [apiPhase, h1, h2, h3] at h
        · simp only [apiPhase, if_neg h1, if_neg h2, if_neg h3] at h ⊢
          exact ih _ h

theorem apiPhase_success (rs : List ApiResp) :
    ∀ r, (apiPhase r rs).1.status = RenewStatus.success →
      r.status = RenewStatus.success ∨ ∃ x ∈ rs, x.status = 200 ∧ x.ok = true := by
  induction rs with
  | nil => intro r h; exact Or.inl h
  | cons resp rest ih =>
    intro r h
    by_cases h1 : resp.status = 200 ∧ resp.ok = true
    · exact Or.inr ⟨resp, List.mem_cons_self resp rest, h1⟩
    · by_cases h2 : resp.status = 400
      · by_cases h2e : exceedIn resp.message = true
        · simp [apiPhase, h1, h2, h2e] at h
        · simp [apiPhase, h1, h2, h2e] at h
      · by_cases h3 : 400 ≤ resp.status
        · simp [apiPhase, h1, h2, h3] at h
        · simp only [apiPhase, if_neg h1, if_neg h2, if_neg h3] at h
          rcases ih _ h with hs | ⟨x, hx, hxx⟩
          · exact Or.inl hs
          · exact Or.inr ⟨x, List.mem_cons_of_mem _ hx, hxx⟩

theorem toastMsg_SUCCESS (ts : List Str) :
    toastMsg ts = some (lit ("SUCCESS")) →
      ∃ t ∈ ts, containsSub (lit ("success")) (strip t) = true ∧
        containsSub (lit ("renew")) (strip t) = true := by
  induction ts with
  | nil => intro h; simp [toastMsg] at h
  | cons t0 rest ih =>
    intro h
    by_cases h1 : (containsSub (lit ("Cannot exceed")) (strip t0) ||
        containsSub (lit ("exceed 7 days")) (strip t0)) = true
    · simp only [toastMsg, h1, if_pos] at h
      rw [Option.some_inj] at h
      rw [h] at h1
      exact absurd h1 (by decide)
    · by_cases h2 : (containsSub (lit ("success")) (strip t0) &&
          containsSub (lit ("renew")) (strip t0)) = true
      · rw [Bool.and_eq_true] at h2
        exact ⟨t0, List.mem_cons_self t0 rest, h2.1, h2.2⟩
      · simp only [toastMsg, h1, h2, if_neg, Bool.false_eq_true] at h
        rcases ih h with ⟨t, ht, hc⟩
        exact ⟨t, List.mem_cons_of_mem _ ht, hc⟩

theorem pageMessage_SUCCESS (body : Str) (ts : List Str) :
    pageMessage body ts = some (lit ("SUCCESS")) →
      (containsSub (lit ("renewed successfully")) body = true ∨
        containsSub (lit ("Renewal successful")) body = true) ∨
      ∃ t ∈ ts, containsSub (lit ("success")) (strip t) = true ∧
        containsSub (lit ("renew")) (strip t) = true := by
  intro h
  unfold pageMessage at h
  by_cases hb1 : containsSub (lit ("Cannot exceed 7 days")) body = true
  · rw [if_pos hb1, Option.some_inj] at h
    exact absurd h (by decide)
  · rw [if_neg hb1] at h
    by_cases hb2 : (containsSub (lit ("limit reached")) body ||
        containsSub (lit ("weekly limit")) body) = true
    · rw [if_pos hb2, Option.some_inj] at h
      exact absurd h (by decide)
    · rw [if_neg hb2] at h
      by_cases hb3 : (containsSub (lit ("renewed successfully")) body ||
          containsSub (lit ("Renewal successful")) body) = true
      · rw [Bool.or_eq_true] at hb3
        exact Or.inl hb3
      · rw [if_neg hb3] at h
        exact Or.inr (toastMsg_SUCCESS ts h)

theorem domPhase_none (r : RenewResult) (b : Str) (ts : List Str)
    (hp : pageMessage b ts = none) : domPhase r b ts = r := by
  unfold domPhase
  rw [hp]

theorem domPhase_some (r : RenewResult) (b : Str) (ts : List Str) (p : Str)
    (hp : pageMessage b ts = some p) :
    domPhase r b ts =
      (if p = [] then r
       else if p = lit ("SUCCESS") then
         { r with status := .success, message := defaultOkMsg }
       else if (containsSub (lit ("exceed")) (lowerStr p) ||
           containsSub (lit ("limit")) (lowerStr p)) = true then
         { r with status := .limit_reached, message := p }
       else r) := by
  unfold domPhase
  rw [hp]

theorem domPhase_success (r : RenewResult) (b : Str) (ts : List Str) :
    (domPhase r b ts).status = RenewStatus.success →
      r.status = RenewStatus.success ∨ pageMessage b ts = some (lit ("SUCCESS")) := by
  intro h
  cases hp : pageMessage b ts with
  | none => rw [domPhase_none r b ts hp] at h; exact Or.inl h
  | some p =>
    rw [domPhase_some r b ts p hp] at h
    by_cases he : p = []
    · rw [if_pos he] at h; exact Or.inl h
    · rw [if_neg he] at h
      by_cases hs : p = lit ("SUCCESS")
      · exact Or.inr (by rw [hs])
      · rw [if_neg hs] at h
        by_cases hl : (containsSub (lit ("exceed")) (lowerStr p) ||
            containsSub (lit ("limit")) (lowerStr p)) = true
        · simp [hl] at h
        · rw [if_neg hl] at h; exact Or.inl h

theorem domPhase_status_eq (r r2 : RenewResult) (b : Str) (ts : List Str)
    (h : r.status = r2.status) :
    (domPhase r b ts).status = (domPhase r2 b ts).status := by
  cases hp : pageMessage b ts with
  | none => rw [domPhase_none r b ts hp, domPhase_none r2 b ts hp]; exact h
  | some p =>
    rw [domPhase_some r b ts p hp, domPhase_some r2 b ts p hp]
    by_cases he : p = []
    · simp [he, h]
    · by_cases hs : p = lit ("SUCCESS")
      · subst hs
        rw [if_neg he, if_neg he, if_pos rfl, if_pos rfl]
      · by_cases hl : (containsSub (lit ("exceed")) (lowerStr p) ||
            containsSub (lit ("limit")) (lowerStr p)) = true
        · simp [he, hs, hl]
        · simp [he, hs, hl, h]

theorem not_decisive_facts (resp : ApiResp) (hd : decisiveResp resp = false) :
    ¬(resp.status = 200 ∧ resp.ok = true) ∧ ¬resp.status = 400 ∧ ¬400 ≤ resp.status := by
  unfold decisiveResp at hd
  rw [Bool.or_eq_false_iff, Bool.and_eq_false_iff] at hd
  obtain ⟨hd1, hd2⟩ := hd
  have h3 : ¬400 ≤ resp.status := by simpa using hd2
  refine ⟨?_, fun e => h3 (by omega), h3⟩
  rintro ⟨ha, hb⟩
  rcases hd1 with hx | hx
  · exact absurd (by simpa using hx) (by simp [ha])
  · simp [hb] at hx

theorem apiPhase_find_some (rs : List ApiResp) :
    ∀ r x, rs.find? decisiveResp = some x →
      (apiPhase r rs).2 = true ∧
      (apiPhase r rs).1.status = specStructuredMapping x := by
  induction rs with
  | nil => intro r x h; simp [List.find?] at h
  | cons resp rest ih =>
    intro r x h
    by_cases hd : decisiveResp resp = true
    · rw [List.find?_cons_of_pos _ hd, Option.some_inj] at h
      subst h
      by_cases h1 : resp.status = 200 ∧ resp.ok = true
      · constructor
        · simp [apiPhase, h1]
        · simp [apiPhase, h1, specStructuredMapping]
      · have h4 : 400 ≤ resp.status := by
          unfold decisiveResp at hd
          rw [Bool.or_eq_true, Bool.and_eq_true] at hd
          rcases hd with ⟨ha, hb⟩ | hx
          · exact absurd ⟨by simpa using ha, hb⟩ h1
          · simpa using hx
        by_cases h2 : resp.status = 400
        · by_cases h2e : exceedIn resp.message = true
          · constructor
            · simp [apiPhase, h1, h2, h2e]
            · simp [apiPhase, h1, h2, h2e, specStructuredMapping]
          · constructor
            · simp [apiPhase, h1, h2, h2e]
            · simp [apiPhase, h1, h2, h2e, specStructuredMapping]
        · constructor
          · simp [apiPhase, h1, h2, h4]
          · have hm : specStructuredMapping resp = RenewStatus.error := by
              unfold specStructuredMapping
              rw [if_neg h1, if_neg (fun hx => h2 hx.1)]
            simp [apiPhase, h1, h2, h4, hm]
    · have hd2 : decisiveResp resp = false := by simpa using hd
      rw [List.find?_cons_of_neg _ hd] at h
      obtain ⟨h1, h2, h3⟩ := not_decisive_facts resp hd2
      simp only [apiPhase, if_neg h1, if_neg h2, if_neg h3]
      exact ih _ _ h

theorem apiPhase_find_none (rs : List ApiResp) :
    ∀ r, rs.find? decisiveResp = none → (apiPhase r rs).2 = false := by
  induction rs with
  | nil => intro r _; rfl
  | cons resp rest ih =>
    intro r h
    have hall := List.find?_eq_none.mp h
    have hd : decisiveResp resp = false := by
      have := hall resp (List.mem_cons_self resp rest)
      simpa using this
    obtain ⟨h1, h2, h3⟩ := not_decisive_facts resp hd
    simp only [apiPhase, if_neg h1, if_neg h2, if_neg h3]
    exact ih _ (List.find?_eq_none.mpr
      (fun x hx => hall x (List.mem_cons_of_mem _ hx)))

/-! Renewal-loop lemmas. -/

theorem renewLoopGo_le (env : Nat → RenewRound) (rem : Nat) :
    ∀ round total clicks,
      (renewLoopGo env round rem total clicks).clicks ≤ clicks + rem ∧
      (renewLoopGo env round rem total clicks).total ≤ total + rem := by
  induction rem with
  | zero =>
    intro round total clicks
    simp [renewLoopGo]
  | succ rem ih =>
    intro round total clicks
    simp only [renewLoopGo]
    split
    · refine ⟨?_, ?_⟩ <;> dsimp only <;> omega
    · split
      · have := ih (round + 1) total (clicks + 1)
        refine ⟨?_, ?_⟩ <;> omega
      · split
        · refine ⟨?_, ?_⟩ <;> dsimp only <;> omega
        · split
          · split
            · refine ⟨?_, ?_⟩ <;> dsimp only <;> omega
            · have := ih (round + 1) (total + 1) (clicks + 1)
              refine ⟨?_, ?_⟩ <;> omega
          · have := ih (round + 1) (total + 1) (clicks + 1)
            refine ⟨?_, ?_⟩ <;> omega

theorem renewLoopGo_scenario (env : Nat → RenewRound)
    (hs : ∀ i, (env i).btnDisabled = false ∧ (env i).modalVisible = true ∧
      (env i).limitReached = false ∧ ∀ n, (env i).daysNum = some n → n < 7) :
    ∀ (rem round total clicks : Nat),
      renewLoopGo env round rem total clicks =
        ⟨total + rem, clicks + rem, StopReason.maxRounds⟩ := by
  intro rem
  induction rem with
  | zero => intro round total clicks; rfl
  | succ rem ih =>
    intro round total clicks
    obtain ⟨h1, h2, h3, h4⟩ := hs round
    simp only [renewLoopGo]
    split
    · rename_i hcond
      rw [h1] at hcond
      exact absurd hcond (by decide)
    · split
      · rename_i hcond
        rw [h2] at hcond
        exact absurd hcond (by decide)
      · split
        · rename_i hcond
          rw [h3] at hcond
          exact absurd hcond (by decide)
        · split
          · rename_i n hd
            split
            · rename_i h7
              exact absurd h7 (by have := h4 n hd; omega)
            · rw [ih]
              simp only [LoopOut.mk.injEq]
              exact ⟨by omega, by omega, trivial⟩
          · rw [ih]
            simp only [LoopOut.mk.injEq]
            exact ⟨by omega, by omega, trivial⟩

/-! Challenge-handler lemmas. -/

theorem handle_turnstile_go_le (obs : Nat → TurnstileObs) (rem : Nat) :
    ∀ a c, (handle_turnstile_go obs a rem c).2 ≤ c + rem := by
  induction rem with
  | zero => intro a c; simp [handle_turnstile_go]
  | succ rem ih =>
    intro a c
    simp only [handle_turnstile_go]
    split
    · dsimp only
      omega
    · split
      · dsimp only
        omega
      · split
        · dsimp only
          omega
        · have := ih (a + 1) (c + 1)
          omega

theorem handle_turnstile_go_exhaust (obs : Nat → TurnstileObs) (rem : Nat) :
    ∀ a c, (∀ j, j < rem → (obs (a + j)).hasTurnstile = true ∧
        (obs (a + j)).isChecked = false ∧ (obs (a + j)).isCheckedAfterClick = false) →
      handle_turnstile_go obs a rem c = (false, c + rem) := by
  induction rem with
  | zero => intro a c _; rfl
  | succ rem ih =>
    intro a c hall
    obtain ⟨h1, h2, h3⟩ := by simpa using hall 0 (Nat.succ_pos rem)
    have hrest : ∀ j, j < rem → (obs (a + 1 + j)).hasTurnstile = true ∧
        (obs (a + 1 + j)).isChecked = false ∧ (obs (a + 1 + j)).isCheckedAfterClick = false := by
      intro j hj
      have := hall (j + 1) (by omega)
      rwa [show a + (j + 1) = a + 1 + j by omega] at this
    simp only [handle_turnstile_go]
    split
    · rename_i hcond
      rw [h1] at hcond
      exact absurd hcond (by decide)
    · split
      · rename_i hcond
        rw [h2] at hcond
        exact absurd hcond (by decide)
      · split
        · rename_i hcond
          rw [h3] at hcond
          exact absurd hcond (by decide)
        · rw [ih (a + 1) (c + 1) hrest]
          simp only [Prod.mk.injEq]
          exact ⟨trivial, by omega⟩

/-! Masking lemmas. -/

theorem mem_take_le (s : Str) (c : Char) (j : Nat) (hj : j ≤ 2)
    (h : c ∈ s.take j) : c ∈ s.take 2 := by
  have he : s.take j = (s.take 2).take j := by
    rw [List.take_take, Nat.min_eq_left hj]
  rw [he] at h
  exact List.take_subset _ _ h

theorem mem_drop_le (s : Str) (c : Char) (j : Nat) (hj : j ≤ 2)
    (h : c ∈ s.drop (s.length - j)) : c ∈ s.drop (s.length - 2) := by
  by_cases hl : s.length ≤ 2
  · have h2 : s.length - 2 = 0 := by omega
    rw [h2, List.drop_zero]
    exact List.drop_subset _ _ h
  · have he : s.length - j = (s.length - 2) + (s.length - j - (s.length - 2)) := by omega
    rw [he, ← List.drop_drop] at h
    exact List.drop_subset _ _ h

theorem mask_chars (s : Str) (c : Char) (h : c ∈ mask s) :
    c = '*' ∨ c ∈ s.take 2 ++ s.drop (s.length - 2) := by
  unfold mask at h
  by_cases hc : s = [] ∨ s.length ≤ 4
  · rw [if_pos hc] at h
    left
    rw [show lit ("****") = ['*', '*', '*', '*'] from rfl] at h
    simpa using h
  · rw [if_neg hc] at h
    rcases List.mem_append.mp h with h12 | h3
    · rcases List.mem_append.mp h12 with h1 | h2
      · exact Or.inr (List.mem_append.mpr (Or.inl h1))
      · left
        rw [show lit ("***") = ['*', '*', '*'] from rfl] at h2
        simpa using h2
    · exact Or.inr (List.mem_append.mpr (Or.inr h3))

theorem mask_username_chars (s : Str) (c : Char) (h : c ∈ mask_username s) :
    c = '*' ∨ c ∈ s.take 2 ++ s.drop (s.length - 2) := by
  unfold mask_username at h
  by_cases hc : s = [] ∨ s.length ≤ 2
  · rw [if_pos hc] at h
    left
    rw [show lit ("***") = ['*', '*', '*'] from rfl] at h
    simpa using h
  · rw [if_neg hc] at h
    by_cases hm : s.length ≤ 4
    · rw [if_pos hm] at h
      rcases List.mem_append.mp h with h1 | h2
      · exact Or.inr (List.mem_append.mpr (Or.inl (mem_take_le s c 1 (by omega) h1)))
      · exact Or.inl (List.eq_of_mem_replicate h2)
    · rw [if_neg hm] at h
      rcases List.mem_append.mp h with h12 | h3
      · rcases List.mem_append.mp h12 with h1 | h2
        · exact Or.inr (List.mem_append.mpr (Or.inl
            (mem_take_le s c _ (Nat.min_le_left 2 _) h1)))
        · exact Or.inl (List.eq_of_mem_replicate h2)
      · exact Or.inr (List.mem_append.mpr (Or.inr
          (mem_drop_le s c _ (Nat.min_le_left 2 _) h3)))

theorem mask_id_chars (s : Str) (c : Char) (h : c ∈ mask_id s) :
    c = '*' ∨ c ∈ s.take 2 ++ s.drop (s.length - 2) := by
  unfold mask_id at h
  by_cases hc : s = [] ∨ s.length ≤ 2
  · rw [if_pos hc] at h
    have hlen : s.length ≤ 2 := by
      rcases hc with hc | hc
      · simp [hc]
      · exact hc
    refine Or.inr (List.mem_append.mpr (Or.inl ?_))
    rwa [List.take_of_length_le hlen]
  · rw [if_neg hc] at h
    rcases List.mem_append.mp h with h12 | h3
    · rcases List.mem_append.mp h12 with h1 | h2
      · exact Or.inr (List.mem_append.mpr (Or.inl (mem_take_le s c 1 (by omega) h1)))
      · exact Or.inl (List.eq_of_mem_replicate h2)
    · exact Or.inr (List.mem_append.mpr (Or.inr (mem_drop_le s c 1 (by omega) h3)))

/-! Check-in classifier lemmas. -/

theorem startsWithStr_append_of_le (n : Str) : ∀ (a b : Str), n.length ≤ a.length →
    startsWithStr n (a ++ b) = startsWithStr n a := by
  induction n with
  | nil => intro a b _; rfl
  | cons x ns ih =>
    intro a b h
    cases a with
    | nil => simp at h
    | cons y as =>
      show (decide (x = y) && startsWithStr ns (as ++ b)) =
        (decide (x = y) && startsWithStr ns as)
      rw [ih as b (by simpa using h)]

theorem firstPopupText_mem (popups : List (Option Str)) :
    ∀ t, firstPopupText popups = some t →
      ∃ o ∈ popups, ∃ s, o = some s ∧ t = strip (removeTimes s) := by
  induction popups with
  | nil => intro t h; simp [firstPopupText] at h
  | cons o rest ih =>
    intro t h
    cases ho : popupTextOf o with
    | some u =>
      simp only [firstPopupText, ho, Option.some_inj] at h
      cases o with
      | none => simp [popupTextOf] at ho
      | some s =>
        refine ⟨some s, List.mem_cons_self _ _, s, rfl, ?_⟩
        unfold popupTextOf at ho
        by_cases he : strip (removeTimes s) = []
        · simp [he] at ho
        · simp only [he, if_neg, not_false_eq_true, Option.some_inj] at ho
          rw [← h, ← ho]
    | none =>
      simp only [firstPopupText, ho] at h
      rcases ih t h with ⟨o2, ho2, hrest⟩
      exact ⟨o2, List.mem_cons_of_mem _ ho2, hrest⟩

theorem checkin_result_some (popups : List (Option Str)) (page d text : Str)
    (hf : firstPopupText popups = some text) :
    _get_checkin_result popups page d =
      (if containsSub (lit ("签到成功")) text = true then lit ("[🎉] ") ++ d ++ ' ' :: text
       else if (containsSub (lit ("已经签到")) text ||
           containsSub (lit ("已签到")) text) = true then
         lit ("[⏭️] ") ++ d ++ lit (" 今日已签到")
       else lit ("[⚠️] ") ++ d ++ ' ' :: text) := by
  unfold _get_checkin_result
  rw [hf]

theorem checkin_result_none (popups : List (Option Str)) (page d : Str)
    (hf : firstPopupText popups = none) :
    _get_checkin_result popups page d =
      (if containsSub (lit ("签到成功")) page = true then
         lit ("[🎉] ") ++ d ++ lit (" 签到成功")
       else if (containsSub (lit ("已连续签到")) page ||
           containsSub (lit ("已签到")) page) = true then
         lit ("[⏭️] ") ++ d ++ lit (" 今日已签到")
       else lit ("[❓] ") ++ d ++ lit (" 签到状态未知")) := by
  unfold _get_checkin_result
  rw [hf]

theorem checkin_not_celebrate (popups : List (Option Str)) (page d : Str)
    (hp : ∀ o ∈ popups, ∀ s, o = some s →
      containsSub (lit ("签到成功")) (strip (removeTimes s)) = false)
    (hpage : containsSub (lit ("签到成功")) page = false) :
    startsWithStr (lit ("[🎉]")) (_get_checkin_result popups page d) = false := by
  cases hf : firstPopupText popups with
  | some text =>
    rw [checkin_result_some popups page d text hf]
    obtain ⟨o, ho, s, hos, htext⟩ := firstPopupText_mem popups text hf
    have hns : containsSub (lit ("签到成功")) text = false := by
      rw [htext]; exact hp o ho s hos
    rw [if_neg (by simp [hns])]
    by_cases h2 : (containsSub (lit ("已经签到")) text ||
        containsSub (lit ("已签到")) text) = true
    · rw [if_pos h2, List.append_assoc,
        startsWithStr_append_of_le (lit ("[🎉]")) (lit ("[⏭️] ")) _ (by decide)]
      decide
    · rw [if_neg h2, List.append_assoc,
        startsWithStr_append_of_le (lit ("[🎉]")) (lit ("[⚠️] ")) _ (by decide)]
      decide
  | none =>
    rw [checkin_result_none popups page d hf]
    rw [if_neg (by simp [hpage])]
    by_cases h2 : (containsSub (lit ("已连续签到")) page ||
        containsSub (lit ("已签到")) page) = true
    · rw [if_pos h2, List.append_assoc,
        startsWithStr_append_of_le (lit ("[🎉]")) (lit ("[⏭️] ")) _ (by decide)]
      decide
    · rw [if_neg h2, List.append_assoc,
        startsWithStr_append_of_le (lit ("[🎉]")) (lit ("[❓] ")) _ (by decide)]
      decide

/-! Shared key-membership and pair-projection lemmas. -/

theorem mem_keys_iff (l : List (Str × Str)) (k : Str) :
    k ∈ l.map Prod.fst ↔ ∃ v, (k, v) ∈ l := by
  constructor
  · intro h
    rcases List.mem_map.mp h with ⟨q, hq, he⟩
    subst he
    exact ⟨q.2, hq⟩
  · rintro ⟨v, hv⟩
    exact List.mem_map.mpr ⟨(k, v), hv, rfl⟩

theorem parse_cookies_key_mem (str k : Str) :
    k ∈ (parse_cookies str).map Prod.fst ↔ k ∈ (goodBindings str).map Prod.fst := by
  rw [parse_cookies_eq_dictFold, mem_keys_foldl_dictInsert]
  simp

theorem goodBindings_key_mem (str k : Str) :
    k ∈ (goodBindings str).map Prod.fst ↔
      ∃ part ∈ splitChar ';' str, ∃ v, segParse part = some (k, v) := by
  unfold goodBindings
  by_cases h : str = []
  · subst h
    rw [if_pos rfl]
    constructor
    · intro hx; simp at hx
    · rintro ⟨part, hp, v, hv⟩
      have hpe : part = [] := by simpa [splitChar] using hp
      rw [hpe, show segParse ([] : Str) = none from rfl] at hv
      exact Option.noConfusion hv
  · rw [if_neg h]
    constructor
    · intro hx
      rcases List.mem_map.mp hx with ⟨q, hq, hfst⟩
      rcases List.mem_filterMap.mp hq with ⟨part, hpart, hseg⟩
      subst hfst
      exact ⟨part, hpart, q.2, hseg⟩
    · rintro ⟨part, hpart, v, hv⟩
      exact List.mem_map.mpr ⟨(k, v), List.mem_filterMap.mpr ⟨part, hpart, hv⟩, rfl⟩

theorem pw_pairs_eq (unq : Str → Str) (str dom : Str) :
    (parse_cookie_string unq str dom).map (fun c => (c.name, c.value)) =
      eqSegPairs unq str := by
  rw [parse_cookie_string_eq_filterMap]
  unfold eqSegPairs
  by_cases h : str = []
  · simp [h]
  · rw [if_neg h, if_neg h, List.map_filterMap]
    have hfun : ∀ item : Str,
        (pwCookieOfItem unq dom item).map (fun c => (c.name, c.value)) =
          eqSegPair unq item := by
      intro item
      unfold pwCookieOfItem eqSegPair
      cases hs : splitFirst '=' (strip item) with
      | none => simp [hs]
      | some q => simp [hs]
    rw [funext hfun]

/-! Claim theorems. -/

/-- C1: no silent success.  If no captured API response has status 200
with the ok flag and no success phrase is present in the page text or
toasts, `check_renewal_result` never returns the success status; if no
popup text and no page phrase mentions a successful check-in,
`_get_checkin_result` never produces the success tag; and classifying
an empty evidence list yields the unknown outcome in both classifiers. -/
theorem claim_C1_no_silent_success :
    (∀ (api : List ApiResp) (body : Str) (toasts : List Str),
      (∀ x ∈ api, ¬(x.status = 200 ∧ x.ok = true)) →
      containsSub (lit ("renewed successfully")) body = false →
      containsSub (lit ("Renewal successful")) body = false →
      (∀ t ∈ toasts, ¬(containsSub (lit ("success")) (strip t) = true ∧
        containsSub (lit ("renew")) (strip t) = true)) →
      (check_renewal_result api body toasts).status ≠ RenewStatus.success)
    ∧ check_renewal_result [] [] [] =
        { status := RenewStatus.unknown, message := [], api_status := none }
    ∧ (∀ (popups : List (Option Str)) (page d : Str),
      (∀ o ∈ popups, ∀ s, o = some s →
        containsSub (lit ("签到成功")) (strip (removeTimes s)) = false) →
      containsSub (lit ("签到成功")) page = false →
      startsWithStr (lit ("[🎉]")) (_get_checkin_result popups page d) = false)
    ∧ (∀ d, _get_checkin_result [] [] d =
        lit ("[❓] ") ++ d ++ lit (" 签到状态未知")) := by
  refine ⟨?_, by decide, ?_, ?_⟩
  · intro api body toasts hapi hb1 hb2 ht hcon
    have heq : check_renewal_result api body toasts =
        (if (apiPhase initialRenewResult api.reverse).2 = true
         then (apiPhase initialRenewResult api.reverse).1
         else domPhase (apiPhase initialRenewResult api.reverse).1 body toasts) := rfl
    rw [heq] at hcon
    by_cases hr : (apiPhase initialRenewResult api.reverse).2 = true
    · rw [if_pos hr] at hcon
      rcases apiPhase_success api.reverse initialRenewResult hcon with hs | ⟨x, hx, hxx⟩
      · exact RenewStatus.noConfusion hs
      · exact hapi x (List.mem_reverse.mp hx) hxx
    · rw [if_neg hr] at hcon
      rcases domPhase_success _ body toasts hcon with hs | hpm
      · have hnr : (apiPhase initialRenewResult api.reverse).2 = false := by
          simpa using hr
        have := (apiPhase_not_returned api.reverse initialRenewResult hnr).1
        rw [this] at hs
        exact RenewStatus.noConfusion hs
      · rcases pageMessage_SUCCESS body toasts hpm with hb | ⟨t, htm, hta, htb⟩
        · rcases hb with hb | hb
          · rw [hb1] at hb; exact Bool.noConfusion hb
          · rw [hb2] at hb; exact Bool.noConfusion hb
        · exact ht t htm ⟨hta, htb⟩
  · exact checkin_not_celebrate
  · intro d
    rw [checkin_result_none [] [] d rfl, if_neg (by decide), if_neg (by decide)]

/-- C1 witness: a failed API capture plus an unrelated toast does not
classify as success. -/
theorem claim_C1_witness :
    (check_renewal_result [⟨500, false, []⟩] [] [lit ("hello")]).status ≠
      RenewStatus.success :=
  claim_C1_no_silent_success.1 [⟨500, false, []⟩] [] [lit ("hello")]
    (by decide) (by decide) (by decide) (by decide)

/-- C2 counterexample: with a captured structured response present
(status 300, not ok), the classifier still consults the DOM text: a
success phrase in the body turns the result into success, and changing
only the DOM text changes the result.  This refutes the claim that the
result is determined solely by the structured-response mapping whenever
a structured response is present. -/
theorem claim_C2_counterexample :
    ([(⟨300, false, []⟩ : ApiResp)] ≠ ([] : List ApiResp)) ∧
    (check_renewal_result [⟨300, false, []⟩] (lit ("renewed successfully")) []).status =
      RenewStatus.success ∧
    check_renewal_result [⟨300, false, []⟩] (lit ("renewed successfully")) [] ≠
      check_renewal_result [⟨300, false, []⟩] [] [] :=
  ⟨by decide, by decide, by decide⟩

/-- C2 amended: whenever some captured structured response is decisive
(status 200 with ok, or any status at least 400), the classifier result
is determined by the first decisive response in latest-first order via
the structured-response mapping and is independent of the DOM text;
the DOM-text tier decides only when no structured response is decisive,
in which case the status is the same as with no API evidence at all. -/
theorem claim_C2_amended :
    (∀ (api : List ApiResp) (b1 b2 : Str) (t1 t2 : List Str) (x : ApiResp),
      api.reverse.find? decisiveResp = some x →
      check_renewal_result api b1 t1 = check_renewal_result api b2 t2 ∧
      (check_renewal_result api b1 t1).status = specStructuredMapping x)
    ∧ (∀ (api : List ApiResp) (b : Str) (t : List Str),
      api.reverse.find? decisiveResp = none →
      (check_renewal_result api b t).status = (check_renewal_result [] b t).status) := by
  constructor
  · intro api b1 b2 t1 t2 x hfind
    obtain ⟨hret, hstat⟩ := apiPhase_find_some api.reverse initialRenewResult x hfind
    have he1 : check_renewal_result api b1 t1 =
        (apiPhase initialRenewResult api.reverse).1 := by
      show (if (apiPhase initialRenewResult api.reverse).2 = true
        then (apiPhase initialRenewResult api.reverse).1
        else domPhase (apiPhase initialRenewResult api.reverse).1 b1 t1) = _
      rw [if_pos hret]
    have he2 : check_renewal_result api b2 t2 =
        (apiPhase initialRenewResult api.reverse).1 := by
      show (if (apiPhase initialRenewResult api.reverse).2 = true
        then (apiPhase initialRenewResult api.reverse).1
        else domPhase (apiPhase initialRenewResult api.reverse).1 b2 t2) = _
      rw [if_pos hret]
    refine ⟨he1.trans he2.symm, ?_⟩
    rw [he1]
    exact hstat
  · intro api b t hfind
    have hret := apiPhase_find_none api.reverse initialRenewResult hfind
    have he1 : check_renewal_result api b t =
        domPhase (apiPhase initialRenewResult api.reverse).1 b t := by
      show (if (apiPhase initialRenewResult api.reverse).2 = true
        then (apiPhase initialRenewResult api.reverse).1
        else domPhase (apiPhase initialRenewResult api.reverse).1 b t) = _
      rw [hret]
      rfl
    have he2 : check_renewal_result [] b t = domPhase initialRenewResult b t := rfl
    rw [he1, he2]
    exact domPhase_status_eq _ _ b t
      (apiPhase_not_returned api.reverse initialRenewResult hret).1

/-- C2 witness: a 400 response with an exceed message dominates a
contradictory success phrase in the DOM, yielding the limit outcome of
the structured mapping. -/
theorem claim_C2_witness :
    check_renewal_result [⟨400, false, lit ("cannot exceed 7 days")⟩]
        (lit ("renewed successfully")) [] =
      check_renewal_result [⟨400, false, lit ("cannot exceed 7 days")⟩] [] [] ∧
    (check_renewal_result [⟨400, false, lit ("cannot exceed 7 days")⟩]
        (lit ("renewed successfully")) []).status =
      specStructuredMapping ⟨400, false, lit ("cannot exceed 7 days")⟩ :=
  claim_C2_amended.1 [⟨400, false, lit ("cannot exceed 7 days")⟩]
    (lit ("renewed successfully")) [] [] [] ⟨400, false, lit ("cannot exceed 7 days")⟩
    (by decide)

/-- C3: iterative loop bound.  The renewal loop performs at most 7
trigger clicks and at most 7 renewals in any environment; when no stop
condition ever trips (button never disabled, modal always opens, no
limit text, remaining days never reach 7) it runs exactly 7 rounds and
stops on the max-iteration bound; and a full `main` run reaching the
loop under those conditions reports the aggregate run as a success
notification. -/
theorem claim_C3_loop_bound :
    (∀ env : Nat → RenewRound,
      (runRenewLoop env).clicks ≤ 7 ∧ (runRenewLoop env).total ≤ 7)
    ∧ (∀ env : Nat → RenewRound,
      (∀ i, (env i).btnDisabled = false ∧ (env i).modalVisible = true ∧
        (env i).limitReached = false ∧ ∀ n, (env i).daysNum = some n → n < 7) →
      runRenewLoop env = ⟨7, 7, StopReason.maxRounds⟩)
    ∧ (∀ env : MainEnv,
      env.initialPageError = none → env.initialBlocked = false →
      env.sessionPageError = none →
      check_login_status env.sessionUrl env.sessionDom = true →
      env.freePanelError = none →
      containsSub (lit ("/free_panel")) env.freePanelUrl = true →
      env.freePanelBlocked = false →
      env.renewBtnDisabled = false →
      (∀ i, (env.rounds i).btnDisabled = false ∧ (env.rounds i).modalVisible = true ∧
        (env.rounds i).limitReached = false ∧ ∀ n, (env.rounds i).daysNum = some n → n < 7) →
      mainFlow env = ⟨0, [(true, lit ("续订成功"))], true, 7⟩) := by
  have hloop : ∀ env : Nat → RenewRound,
      (∀ i, (env i).btnDisabled = false ∧ (env i).modalVisible = true ∧
        (env i).limitReached = false ∧ ∀ n, (env i).daysNum = some n → n < 7) →
      runRenewLoop env = ⟨7, 7, StopReason.maxRounds⟩ := by
    intro env hs
    exact renewLoopGo_scenario env hs maxRenewals 1 0 0
  refine ⟨?_, hloop, ?_⟩
  · intro env
    exact renewLoopGo_le env maxRenewals 1 0 0
  · intro env h1 h2 h3 h4 h5 h6 h7 h8 h9
    have hstep1 : mainFlow env = flowFreePanelPhase env := by
      unfold mainFlow
      rw [h1, h2, h3, h4]
      rfl
    have hc : ¬(containsSub (lit ("/free_panel")) env.freePanelUrl = false ∧
        (env.retryFreePanelError ≠ none ∨
          containsSub (lit ("/free_panel")) env.retryFreePanelUrl = false)) := by
      rw [h6]
      rintro ⟨hx, _⟩
      exact Bool.noConfusion hx
    have hstep2 : flowFreePanelPhase env = flowRenewPhase env := by
      unfold flowFreePanelPhase
      rw [h5, if_neg hc, h7]
      rfl
    have hstep3 : flowRenewPhase env = ⟨0, [(true, lit ("续订成功"))], true, 7⟩ := by
      unfold flowRenewPhase
      rw [h8, hloop env.rounds h9]
      rfl
    rw [hstep1, hstep2, hstep3]

/-- C3 witness: a run whose pre-checks all pass and whose rounds always
renew runs the loop 7 times and reports success. -/
theorem claim_C3_witness :
    mainFlow ⟨none, false, none, lit ("https://billing.kerit.cloud/session"),
        ⟨true, false, []⟩, none, lit ("/free_panel"), none, [], false, false,
        fun _ => ⟨false, true, false, none⟩⟩ =
      ⟨0, [(true, lit ("续订成功"))], true, 7⟩ :=
  claim_C3_loop_bound.2.2 _ rfl rfl rfl (by decide) rfl (by decide) rfl rfl
    (fun _ => ⟨rfl, rfl, rfl, fun _ hn => Option.noConfusion hn⟩)

/-- C4 counterexample: the round trip fails for an opaque value
containing the segment separator.  Serializing the credential set
mapping session_id to the value a;b and parsing the result back yields
a set mapping session_id to a, not the original set. -/
theorem claim_C4_counterexample :
    save_cookies_for_update [(sessionIdName, lit ("a;b"))] =
      some (lit ("session_id=a;b")) ∧
    parse_cookies (lit ("session_id=a;b")) = [(sessionIdName, lit ("a"))] ∧
    ([(sessionIdName, lit ("a"))] : List (Str × Str)) ≠
      [(sessionIdName, lit ("a;b"))] :=
  ⟨by decide, by decide, by decide⟩

/-- C4 amended: the round trip law holds for every non-empty credential
set built purely from the allow-listed names with distinct names,
provided each value is non-empty, contains no semicolon, and neither
starts nor ends with whitespace: parsing the serialization returns
exactly the original set. -/
theorem claim_C4_amended :
    ∀ s : List (Str × Str), s ≠ [] →
    (∀ p ∈ s, p.1 = sessionIdName ∨ p.1 = cfClearanceName) →
    (s.map Prod.fst).Nodup →
    (∀ p ∈ s, goodValue p.2) →
    ∃ out, save_cookies_for_update s = some out ∧ parse_cookies out = s := by
  intro s hne hallow hnd hval
  have hkeys : ∀ p ∈ s, goodKey p.1 := by
    intro p hp
    rcases hallow p hp with h | h <;> rw [h] <;> decide
  have himp : s.foldl (fun d c => if c.1 = sessionIdName ∨ c.1 = cfClearanceName
      then dictInsert d c.1 c.2 else d) [] = s := by
    rw [important_foldl_eq s [] hallow]
    simpa using foldl_dictInsert_of_nodup s [] (by simpa using hnd)
  have hsave : save_cookies_for_update s = some (serializePairs s) := by
    simp only [save_cookies_for_update]
    rw [himp, if_neg hne]
  refine ⟨serializePairs s, hsave, ?_⟩
  obtain ⟨p, rest, rfl⟩ : ∃ p rest, s = p :: rest := by
    cases s with
    | nil => exact absurd rfl hne
    | cons p rest => exact ⟨p, rest, rfl⟩
  have hser_ne : serializePairs (p :: rest) ≠ [] :=
    serializePairs_ne_nil p rest (hkeys p (by simp)).1
  unfold parse_cookies
  rw [if_neg hser_ne, foldl_seg_filterMap,
    goodBindings_serialize (p :: rest) (fun q hq => ⟨hkeys q hq, hval q hq⟩)]
  simpa using foldl_dictInsert_of_nodup (p :: rest) [] (by simpa using hnd)

/-- C4 witness: the two-cookie set of the spec scenario round-trips. -/
theorem claim_C4_witness :
    ∃ out, save_cookies_for_update
        [(sessionIdName, lit ("abc")), (cfClearanceName, lit ("xyz"))] = some out ∧
      parse_cookies out =
        [(sessionIdName, lit ("abc")), (cfClearanceName, lit ("xyz"))] :=
  claim_C4_amended _ (by decide) (by decide) (by decide) (by decide)

/-- C5: a login or registration path in the post-injection URL (with no
logged-in DOM marker) makes the login verification fail, and the run
then exits with code 1 after exactly one credential-failure
notification, never entering the renewal loop and performing no trigger
click. -/
theorem claim_C5_auth_failed_aborts :
    ∀ env : MainEnv,
    env.initialPageError = none → env.initialBlocked = false →
    env.sessionPageError = none →
    (containsSub (lit ("/login")) env.sessionUrl = true ∨
      containsSub (lit ("/register")) env.sessionUrl = true) →
    loggedInSignal env.sessionDom ≠ some true →
    mainFlow env = ⟨1, [(false, lit ("登录失败"))], false, 0⟩ := by
  intro env h1 h2 h3 hurl hsig
  have hlogin : check_login_status env.sessionUrl env.sessionDom = false := by
    unfold check_login_status
    rcases hurl with h | h <;> simp [h]
  unfold mainFlow
  rw [h1, h2, h3, hlogin]
  rfl

/-- C5 witness: a concrete run redirected to the login path aborts with
exit code 1, one failure notification, and no loop activity. -/
theorem claim_C5_witness :
    mainFlow ⟨none, false, none, lit ("https://billing.kerit.cloud/login"),
        ⟨false, false, []⟩, none, [], none, [], false, false,
        fun _ => ⟨true, false, false, none⟩⟩ =
      ⟨1, [(false, lit ("登录失败"))], false, 0⟩ :=
  claim_C5_auth_failed_aborts _ rfl rfl rfl (Or.inl (by decide)) (by decide)

/-- C6 counterexample: the three run-result cases are not mapped to
distinct process exit codes.  In panel-na1 the all-succeeded run (2
successes, 0 failures) and the partial-success run (1 success, 1
failure) both exit 0 even though they are distinct cases (their report
titles differ), and the check-in entry point exits 0 in all three
cases, including an all-failed run. -/
theorem claim_C6_counterexample :
    (panel_exit_report 2 0).1 = 0 ∧ (panel_exit_report 1 1).1 = 0 ∧
    (panel_exit_report 2 0).2.2 ≠ (panel_exit_report 1 1).2.2 ∧
    nodeloc_exit 2 0 = 0 ∧ nodeloc_exit 1 1 = 0 ∧ nodeloc_exit 0 2 = 0 :=
  ⟨by decide, by decide, by decide, by decide, by decide, by decide⟩

/-- C6 amended: the process exit code only separates the all-failed run
from runs with at least one success.  panel-na1 exits 1 exactly when
every server failed and 0 otherwise (the all-succeeded and
partial-success cases are distinguished only in the notification
title); the check-in entry point always exits 0; data-online exits 1
exactly on the generic failure status, with disabled and
wrong-password runs exiting 0 like success. -/
theorem claim_C6_amended :
    (∀ s f : Nat, (panel_exit_report s f).1 = if 0 < s ∨ f = 0 then 0 else 1)
    ∧ (∀ s f : Nat, nodeloc_exit s f = 0)
    ∧ (∀ st : DOStatus, data_online_exit st =
        if st = DOStatus.failed then 1 else 0) := by
  refine ⟨?_, ?_, ?_⟩
  · intro s f
    unfold panel_exit_report
    by_cases hf : f = 0
    · rw [if_pos hf, if_pos (Or.inr hf)]
    · rw [if_neg hf]
      by_cases hs : 0 < s
      · rw [if_pos hs, if_pos (Or.inl hs)]
      · rw [if_neg hs, if_neg (by rintro (h | h) <;> omega)]
  · intro s f
    simp [nodeloc_exit]
  · intro st
    cases st <;> decide

/-- C7 counterexample: the input a= splits into the single segment a=,
which contains = and is non-empty, so it is not malformed in the sense
of the claim (missing =, empty segment); yet parse_cookies excludes it
and returns the empty set. -/
theorem claim_C7_counterexample :
    splitChar ';' (lit ("a=")) = [lit ("a=")] ∧
    ('=' ∈ lit ("a=")) ∧ lit ("a=") ≠ [] ∧
    parse_cookies (lit ("a=")) = [] :=
  ⟨by decide, by decide, by decide, by decide⟩

/-- C7 amended: both parsers are total functions (they never raise);
parse_cookies includes a binding for exactly the segments whose trimmed
text splits at a first = into a non-empty trimmed name and a non-empty
trimmed value, excluding all other segments (so also =-containing
segments with an empty name or value side); parse_cookie_string keeps
one cookie per segment containing =, in input order, with the trimmed
name and the URL-decoded trimmed value. -/
theorem claim_C7_amended :
    (∀ (str k : Str),
      (∃ v, (k, v) ∈ parse_cookies str) ↔
        ∃ part ∈ splitChar ';' str, ∃ v, segParse part = some (k, v))
    ∧ (∀ (unq : Str → Str) (str dom : Str),
      (parse_cookie_string unq str dom).map (fun c => (c.name, c.value)) =
        eqSegPairs unq str) := by
  constructor
  · intro str k
    exact (mem_keys_iff _ k).symm.trans
      ((parse_cookies_key_mem str k).trans (goodBindings_key_mem str k))
  · intro unq str dom
    exact pw_pairs_eq unq str dom

/-- C7 witness: the well-formed segment of a=1;b is included. -/
theorem claim_C7_witness :
    ∃ v, (lit ("a"), v) ∈ parse_cookies (lit ("a=1;b")) :=
  (claim_C7_amended.1 (lit ("a=1;b")) (lit ("a"))).mpr
    ⟨lit ("a=1"), by decide, lit ("1"), by decide⟩

/-- C8 counterexample: parse_cookie_string does not deduplicate: on
a=1;a=2 it returns two cookies both named a, so names in the parsed
set are not unique. -/
theorem claim_C8_counterexample :
    ((parse_cookie_string (fun v => v) (lit ("a=1;a=2")) (lit ("d"))).map
      PWCookie.name) = [lit ("a"), lit ("a")] ∧
    ¬ ((parse_cookie_string (fun v => v) (lit ("a=1;a=2")) (lit ("d"))).map
      PWCookie.name).Nodup :=
  ⟨by decide, by decide⟩

/-- C8 amended: parse_cookies resolves duplicate names last-write-wins
and keeps names unique: for every cookie string, looking a name up in
the parsed set yields the value of the last well-formed occurrence of
that name, and the parsed names are pairwise distinct.
parse_cookie_string instead keeps one entry per =-containing segment in
input order, preserving duplicates, so the last entry for a duplicated
name carries the last occurrence. -/
theorem claim_C8_amended :
    (∀ (str k : Str),
      listLookup (parse_cookies str) k = lastValue (goodBindings str) k)
    ∧ (∀ str : Str, ((parse_cookies str).map Prod.fst).Nodup)
    ∧ (∀ (unq : Str → Str) (str dom : Str),
      (parse_cookie_string unq str dom).map (fun c => (c.name, c.value)) =
        eqSegPairs unq str) := by
  refine ⟨?_, ?_, ?_⟩
  · intro str k
    rw [parse_cookies_eq_dictFold, listLookup_foldl_dictInsert]
    cases hlv : lastValue (goodBindings str) k <;> simp [hlv, listLookup]
  · intro str
    rw [parse_cookies_eq_dictFold]
    exact nodup_keys_foldl_dictInsert _ [] (by simp)
  · intro unq str dom
    exact pw_pairs_eq unq str dom

/-- C8 witness: on a=1;a=2 the parsed value of a is that of the last
occurrence. -/
theorem claim_C8_witness :
    listLookup (parse_cookies (lit ("a=1;a=2"))) (lit ("a")) = some (lit ("2")) :=
  (claim_C8_amended.1 (lit ("a=1;a=2")) (lit ("a"))).trans (by decide)

/-- C9: challenge handler contract.  handle_turnstile returns true with
zero interactions as soon as the first attempt detects no challenge
marker; it performs at most max_attempts click interactions; and when
every attempt within the bound sees an unresolved challenge it returns
false (rather than raising) after exactly max_attempts interactions. -/
theorem claim_C9_turnstile_contract :
    ∀ (obs : Nat → TurnstileObs) (max_attempts : Nat),
      (0 < max_attempts → (obs 0).hasTurnstile = false →
        handle_turnstile obs max_attempts = (true, 0))
      ∧ (handle_turnstile obs max_attempts).2 ≤ max_attempts
      ∧ ((∀ i, i < max_attempts → (obs i).hasTurnstile = true ∧
          (obs i).isChecked = false ∧ (obs i).isCheckedAfterClick = false) →
        handle_turnstile obs max_attempts = (false, max_attempts)) := by
  intro obs m
  refine ⟨?_, ?_, ?_⟩
  · intro hm h0
    obtain ⟨m2, rfl⟩ : ∃ m2, m = m2 + 1 := ⟨m - 1, by omega⟩
    unfold handle_turnstile
    simp only [handle_turnstile_go]
    rw [h0]
    rfl
  · have := handle_turnstile_go_le obs m 0 0
    simpa [handle_turnstile] using this
  · intro hall
    have := handle_turnstile_go_exhaust obs m 0 0 (fun j hj => by simpa using hall j hj)
    simpa [handle_turnstile] using this

/-- C9 witness: with no challenge present the handler is an immediate
no-op, and with a never-clearing challenge it returns false after the
default six attempts. -/
theorem claim_C9_witness :
    handle_turnstile (fun _ => ⟨false, false, false⟩) 6 = (true, 0) ∧
    handle_turnstile (fun _ => ⟨true, false, false⟩) 6 = (false, 6) :=
  ⟨(claim_C9_turnstile_contract (fun _ => ⟨false, false, false⟩) 6).1
      (by decide) (by decide),
   (claim_C9_turnstile_contract (fun _ => ⟨true, false, false⟩) 6).2.2
      (fun _ _ => ⟨rfl, rfl, rfl⟩)⟩

/-- C10: masking bound.  Every non-asterisk character of the output of
mask, mask_username, or mask_id is drawn from the first two or last two
characters of the input; no interior character leaks. -/
theorem claim_C10_mask_bound :
    ∀ (s : Str) (c : Char),
      (c ∈ mask s → c = '*' ∨ c ∈ s.take 2 ++ s.drop (s.length - 2))
      ∧ (c ∈ mask_username s → c = '*' ∨ c ∈ s.take 2 ++ s.drop (s.length - 2))
      ∧ (c ∈ mask_id s → c = '*' ∨ c ∈ s.take 2 ++ s.drop (s.length - 2)) :=
  fun s c => ⟨mask_chars s c, mask_username_chars s c, mask_id_chars s c⟩

/-- C10 witness: the character a of mask abcdef comes from the first
two characters of the input. -/
theorem claim_C10_witness :
    'a' = '*' ∨ 'a' ∈ (lit ("abcdef")).take 2 ++
      (lit ("abcdef")).drop ((lit ("abcdef")).length - 2) :=
  (claim_C10_mask_bound (lit ("abcdef")) 'a').1 (by decide)
